import Mathlib

/-!
Verification of the image-resizer/compressor backend (`src/backend/main.py`).

The Python source is shallowly embedded below.  Machine integers are modelled
as `Int`/`Nat`; Python float arithmetic inside the dimension computations is
modelled by exact rational arithmetic (`ℚ`) together with `pyRound`, a model of
Python 3's `round` (round half to even).  All quantities appearing in the
program are small enough (≤ 20000·20000) that the float/rational discrepancy
cannot change any rounding result, so the rational model is faithful.

The two external PIL primitives that produce or consume raw bytes —
`Image.open`+`ImageOps.exif_transpose` (decoding with orientation
normalization) and `Image.save` (encoding) — are modelled as an abstract
`PILModel` parameter: a decode function from bytes to an optional in-memory
raster, and a save function from a raster and the exact keyword arguments the
source passes to the encoder, to output bytes.  Everything else (dimension
resolution, validation, format normalization, preset parsing, filename
sanitization, the batch loop, collision handling) is translated directly from
the source.
-/

/-- Python 3 `round` on a rational: round half to even, returning an integer. -/
def pyRound (x : ℚ) : ℤ :=
  if x - (⌊x⌋ : ℚ) < 1/2 then ⌊x⌋
  else if 1/2 < x - (⌊x⌋ : ℚ) then ⌊x⌋ + 1
  else if ⌊x⌋ % 2 = 0 then ⌊x⌋ else ⌊x⌋ + 1

theorem pyRound_ge_floor (x : ℚ) : ⌊x⌋ ≤ pyRound x := by
  unfold pyRound
  split_ifs <;> omega

theorem pyRound_le_floor_add_one (x : ℚ) : pyRound x ≤ ⌊x⌋ + 1 := by
  unfold pyRound
  split_ifs <;> omega

theorem pyRound_intCast (n : ℤ) : pyRound (n : ℚ) = n := by
  unfold pyRound
  norm_num [Int.floor_intCast]

theorem pyRound_mono {x y : ℚ} (h : x ≤ y) : pyRound x ≤ pyRound y := by
  have hf : ⌊x⌋ ≤ ⌊y⌋ := Int.floor_mono h
  rcases eq_or_lt_of_le hf with heq | hlt
  · -- same floor: compare fractional parts
    unfold pyRound
    rw [← heq]
    have hr : x - (⌊x⌋ : ℚ) ≤ y - (⌊x⌋ : ℚ) := by linarith
    split_ifs <;> first | omega | linarith
  · calc pyRound x ≤ ⌊x⌋ + 1 := pyRound_le_floor_add_one x
      _ ≤ ⌊y⌋ := by omega
      _ ≤ pyRound y := pyRound_ge_floor y

theorem pyRound_le_of_le_intCast {x : ℚ} {n : ℤ} (h : x ≤ (n : ℚ)) :
    pyRound x ≤ n := by
  have := pyRound_mono h
  rwa [pyRound_intCast] at this

/-- The decimal digit characters. -/
def digitChar (d : ℕ) : Char :=
  match d with
  | 0 => '0' | 1 => '1' | 2 => '2' | 3 => '3' | 4 => '4'
  | 5 => '5' | 6 => '6' | 7 => '7' | 8 => '8' | 9 => '9'
  | _ => 'X'

/-- Decimal digits of `n`, least significant first, with explicit fuel so the
recursion is structural (the fuel is always taken `≥ n`). -/
def natDigitsRev (fuel n : ℕ) : List ℕ :=
  match fuel with
  | 0 => []
  | fuel + 1 => if n = 0 then [] else n % 10 :: natDigitsRev fuel (n / 10)

/-- Value of a least-significant-first digit list. -/
def valRev : List ℕ → ℕ
  | [] => 0
  | d :: rest => d + 10 * valRev rest

/-- Decimal numeral of a natural number, as produced by Python f-strings. -/
def natStr (n : ℕ) : String :=
  if n = 0 then "0" else ⟨((natDigitsRev n n).map digitChar).reverse⟩

theorem valRev_natDigitsRev : ∀ fuel n, n ≤ fuel → valRev (natDigitsRev fuel n) = n := by
  intro fuel
  induction fuel with
  | zero => intro n h; interval_cases n; simp [natDigitsRev, valRev]
  | succ fuel ih =>
    intro n h
    by_cases hn : n = 0
    · simp [natDigitsRev, hn, valRev]
    · have hd : n / 10 ≤ fuel := by
        have : n / 10 < n := Nat.div_lt_self (Nat.pos_of_ne_zero hn) (by norm_num)
        omega
      simp [natDigitsRev, hn, valRev, ih _ hd]
      omega

theorem natDigitsRev_lt_ten : ∀ fuel n d, d ∈ natDigitsRev fuel n → d < 10 := by
  intro fuel
  induction fuel with
  | zero => intro n d h; simp [natDigitsRev] at h
  | succ fuel ih =>
    intro n d h
    by_cases hn : n = 0
    · simp [natDigitsRev, hn] at h
    · simp [natDigitsRev, hn] at h
      rcases h with h | h
      · omega
      · exact ih _ _ h

theorem digitChar_inj_lt (a b : ℕ) (ha : a < 10) (hb : b < 10)
    (h : digitChar a = digitChar b) : a = b := by
  have key : ∀ a b : Fin 10, digitChar a = digitChar b → a = b := by decide
  have := key ⟨a, ha⟩ ⟨b, hb⟩ h
  simpa [Fin.ext_iff] using this

theorem map_digitChar_inj : ∀ l1 l2 : List ℕ, (∀ d ∈ l1, d < 10) → (∀ d ∈ l2, d < 10) →
    l1.map digitChar = l2.map digitChar → l1 = l2 := by
  intro l1
  induction l1 with
  | nil => intro l2 _ _ h; cases l2 <;> simp_all
  | cons a t ih =>
    intro l2 h1 h2 h
    cases l2 with
    | nil => simp at h
    | cons b t2 =>
      simp only [List.map_cons, List.cons.injEq] at h
      have ha : a = b := digitChar_inj_lt a b (h1 a (by simp)) (h2 b (by simp)) h.1
      have ht : t = t2 := ih t2 (fun d hd => h1 d (by simp [hd])) (fun d hd => h2 d (by simp [hd])) h.2
      rw [ha, ht]

theorem natStr_inj {m n : ℕ} (hm : 0 < m) (hn : 0 < n) (h : natStr m = natStr n) : m = n := by
  unfold natStr at h
  rw [if_neg (by omega), if_neg (by omega)] at h
  have hdata : ((natDigitsRev m m).map digitChar).reverse = ((natDigitsRev n n).map digitChar).reverse := by
    have := congrArg String.data h
    simpa using this
  have hmap : (natDigitsRev m m).map digitChar = (natDigitsRev n n).map digitChar :=
    List.reverse_injective hdata
  have hdig : natDigitsRev m m = natDigitsRev n n :=
    map_digitChar_inj _ _ (fun d hd => natDigitsRev_lt_ten _ _ _ hd)
      (fun d hd => natDigitsRev_lt_ten _ _ _ hd) hmap
  have := congrArg valRev hdig
  rwa [valRev_natDigitsRev m m le_rfl, valRev_natDigitsRev n n le_rfl] at this

theorem natStr_length_pos {n : ℕ} (hn : 0 < n) : 1 ≤ (natStr n).length := by
  unfold natStr
  rw [if_neg (by omega)]
  have : natDigitsRev n n ≠ [] := by
    cases n with
    | zero => omega
    | succ k => simp [natDigitsRev]
  simp [String.length]
  exact List.length_pos.mpr this

/-- Python whitespace characters recognized by `str.strip()` / `int()`
(ASCII subset; the inputs of interest are ASCII). -/
def wsChar (c : Char) : Bool :=
  c = ' ' ∨ c = '\t' ∨ c = '\n' ∨ c = '\r' ∨ c = Char.ofNat 11 ∨ c = Char.ofNat 12

/-- Strip characters satisfying `p` from both ends of a list. -/
def stripEnds (p : Char → Bool) (l : List Char) : List Char :=
  ((l.dropWhile p).reverse.dropWhile p).reverse

theorem dropWhile_dropWhile (p : Char → Bool) (l : List Char) :
    (l.dropWhile p).dropWhile p = l.dropWhile p := by
  rw [List.dropWhile_eq_self_iff]
  intro hl
  exact List.dropWhile_get_zero_not p l hl

theorem stripEnds_prefix_dropWhile (p : Char → Bool) (l : List Char) :
    stripEnds p l <+: l.dropWhile p := by
  rw [← List.reverse_suffix]
  unfold stripEnds
  rw [List.reverse_reverse]
  exact List.dropWhile_suffix p

theorem dropWhile_stripEnds (p : Char → Bool) (l : List Char) :
    (stripEnds p l).dropWhile p = stripEnds p l := by
  rw [List.dropWhile_eq_self_iff]
  intro hl
  obtain ⟨t, ht⟩ := stripEnds_prefix_dropWhile p l
  have hlen : 0 < (l.dropWhile p).length := by
    rw [← ht]
    simp only [List.length_append]
    omega
  have hget : (stripEnds p l).get ⟨0, hl⟩ = (l.dropWhile p).get ⟨0, hlen⟩ := by
    simp only [List.get_eq_getElem, ← ht]
    rw [List.getElem_append_left hl]
  rw [hget]
  exact List.dropWhile_get_zero_not p l hlen

theorem stripEnds_idem (p : Char → Bool) (l : List Char) :
    stripEnds p (stripEnds p l) = stripEnds p l := by
  have h1 : (stripEnds p l).dropWhile p = stripEnds p l := dropWhile_stripEnds p l
  unfold stripEnds
  unfold stripEnds at h1
  rw [h1, List.reverse_reverse, dropWhile_dropWhile]

/-- Python `str.strip()` with no arguments (whitespace at both ends). -/
def pyStrip (s : String) : String := ⟨stripEnds wsChar s.data⟩

theorem pyStrip_idem (s : String) : pyStrip (pyStrip s) = pyStrip s := by
  unfold pyStrip
  rw [stripEnds_idem]

/-- Python `str.lower()` (ASCII model). -/
def lowerStr (s : String) : String := ⟨s.data.map Char.toLower⟩

/-- Value of an ASCII decimal digit, if `c` is one. -/
def digitVal (c : Char) : Option ℕ :=
  if c.isDigit then some (c.toNat - 48) else none

/-- Digits (with Python's single-underscore separators) after the first digit,
accumulating the value; rejects trailing or doubled underscores. -/
def digitsVal : List Char → ℕ → Option ℕ
  | [], acc => some acc
  | '_' :: c :: rest, acc =>
    match digitVal c with
    | some d => digitsVal rest (acc * 10 + d)
    | none => none
  | '_' :: [], _ => none
  | c :: rest, acc =>
    match digitVal c with
    | some d => digitsVal rest (acc * 10 + d)
    | none => none

/-- Unsigned decimal numeral: at least one digit, underscores only between digits. -/
def parseUnsigned (l : List Char) : Option ℕ :=
  match l with
  | [] => none
  | c :: rest =>
    match digitVal c with
    | some d => digitsVal rest d
    | none => none

/-- Python `int(str)` on an already-whitespace-free character list:
optional sign followed by an unsigned numeral. -/
def pyIntRaw (l : List Char) : Option ℤ :=
  match l with
  | [] => none
  | '+' :: rest => (parseUnsigned rest).map (fun n => (n : ℤ))
  | '-' :: rest => (parseUnsigned rest).map (fun n => -(n : ℤ))
  | _ => (parseUnsigned l).map (fun n => (n : ℤ))

/-- Python `int(s)` for a string `s`: strips whitespace, then parses a signed
base-10 numeral; `none` models the `ValueError`. -/
def pyInt (s : String) : Option ℤ := pyIntRaw (stripEnds wsChar s.data)

/-- An HTTP error raised by the backend (`HTTPException(status_code, detail)`).
The decode-failure detail string drops the appended Python exception text. -/
structure Err where
  status : ℕ
  detail : String
deriving DecidableEq

/-- An in-memory PIL raster: pixel dimensions, the PIL mode string, and whether
`"transparency" in img.info` holds.  Pixel data is irrelevant to every claim
and is not modelled. -/
structure Img where
  width : ℤ
  height : ℤ
  mode : String
  transparency : Bool
deriving DecidableEq

/-- The exact keyword arguments `_save_image` passes to `PIL.Image.save`. -/
inductive SaveCall where
  | jpeg (quality : ℤ) (optimize progressive : Bool)
  | webp (quality : ℤ) (method : ℤ)
  | png (optimize : Bool) (compressLevel : ℤ)
deriving DecidableEq

/-- The external PIL primitives, abstracted: `decode` models
`Image.open` followed by `ImageOps.exif_transpose` (so the resulting size is
orientation-normalized; `none` models a raised exception), and `save` models
`img.save(buf, ...)`, returning the encoded bytes. -/
structure PILModel where
  decode : List ℕ → Option Img
  save : Img → SaveCall → List ℕ

/-- `img.resize((nw, nh), resample=LANCZOS)`: PIL returns a raster of exactly
the requested size with the same mode. -/
def pilResize (img : Img) (nw nh : ℤ) : Img :=
  { img with width := nw, height := nh }

/-- An uploaded multipart file: optional client filename and raw bytes. -/
structure PFile where
  filename : Option String
  data : List ℕ
deriving DecidableEq

/-- Python `a or b` for strings: `b` if `a` is `None` or empty. -/
def pyOrStr (v : Option String) (d : String) : String :=
  match v with
  | none => d
  | some s => if s = "" then d else s

/-- Python `a or b` for optional ints: `b` if `a` is `None` or `0`. -/
def orDefault (v : Option ℤ) (d : ℤ) : ℤ :=
  match v with
  | none => d
  | some x => if x = 0 then d else x

/-- Characters the sanitizer keeps (`[A-Za-z0-9._-]`). -/
def allowedChar (c : Char) : Bool :=
  c.isAlphanum ∨ c = '.' ∨ c = '_' ∨ c = '-'

/-- Collapse runs of underscores to a single underscore (`re.sub("_+", "_")`). -/
def collapseU : List Char → List Char
  | [] => []
  | c :: rest =>
    let r := collapseU rest
    if c = '_' ∧ r.head? = some '_' then r else c :: r

/-- `_clean_filename`: strip, normalize path separators, keep the last path
component, replace runs of disallowed characters with `_`, collapse repeated
underscores, strip underscores at both ends, defaulting to `"image"`.
Replacing each disallowed character by `_` and then collapsing runs of `_`
implements the two `re.sub` calls together. -/
def cleanFilename (name : String) : String :=
  let l1 := stripEnds wsChar name.data
  let l2 := l1.map (fun c => if c = '\\' then '/' else c)
  let l3 := (l2.reverse.takeWhile (fun c => c ≠ '/')).reverse
  let l4 := collapseU (l3.map (fun c => if allowedChar c then c else '_'))
  let l5 := stripEnds (fun c => c = '_') l4
  if l5 = [] then "image" else ⟨l5⟩

/-- Does a character list have the form `\.[A-Za-z0-9]+` (a dot followed by a
nonempty alphanumeric run reaching the end)? -/
def extForm : List Char → Bool
  | '.' :: rest => rest ≠ [] ∧ rest.all (fun c => c.isAlphanum)
  | _ => false

/-- Split at the first position from the left whose remainder is empty or a
valid extension — exactly what the non-greedy regex
`^(.*?)(\.[A-Za-z0-9]+)?$` produces. -/
def splitStem : List Char → List Char × List Char
  | [] => ([], [])
  | c :: rest =>
    if extForm (c :: rest) then ([], c :: rest)
    else
      let p := splitStem rest
      (c :: p.1, p.2)

/-- `_split_name_ext`: base name and (possibly empty) extension. -/
def splitNameExt (name : String) : String × String :=
  let p := splitStem name.data
  (⟨p.1⟩, ⟨p.2⟩)

/-- `_parse_int`: `None` for a missing value, a stripped-empty value, or an
`int()` parse failure. -/
def parseIntForm (v : Option String) : Option ℤ :=
  match v with
  | none => none
  | some s =>
    let t := pyStrip s
    if t = "" then none else pyInt t

/-- `MAX_DIMENSION` from the source. -/
def maxDimension : ℤ := 20000

/-- One dimension check of `_validate_dims`. -/
def validateOne (n : Option ℤ) : Except Err Unit :=
  match n with
  | none => .ok ()
  | some v =>
    if v ≤ 0 then .error ⟨400, "Width/Height must be positive."⟩
    else if v > maxDimension then .error ⟨400, "Max dimension is 20000px."⟩
    else .ok ()

/-- `_validate_dims`: width first, then height. -/
def validateDims (w h : Option ℤ) : Except Err Unit :=
  match validateOne w with
  | .error e => .error e
  | .ok _ => validateOne h

/-- `_normalize_format`: strip, lowercase, alias `jpg` to `jpeg`; empty string
for anything unsupported. -/
def normalizeFormat (fmt : String) : String :=
  let f := lowerStr (pyStrip fmt)
  if f = "jpg" ∨ f = "jpeg" then "jpeg"
  else if f = "png" then "png"
  else if f = "webp" then "webp"
  else ""

/-- `_format_ext`. -/
def formatExt (fmt : String) : String :=
  if fmt = "jpeg" then ".jpg" else "." ++ fmt

/-- `_fit_size_keep_ratio`: fit inside the target box keeping the aspect
proportions (rational model of the Python float computation). -/
def fitSizeKeepAR (ow oh : ℤ) (tw th : Option ℤ) : ℤ × ℤ :=
  match tw, th with
  | none, none => (ow, oh)
  | some t, none =>
    let scale : ℚ := (t : ℚ) / (ow : ℚ)
    (max 1 (pyRound ((ow : ℚ) * scale)), max 1 (pyRound ((oh : ℚ) * scale)))
  | none, some t =>
    let scale : ℚ := (t : ℚ) / (oh : ℚ)
    (max 1 (pyRound ((ow : ℚ) * scale)), max 1 (pyRound ((oh : ℚ) * scale)))
  | some a, some b =>
    let scale : ℚ := min ((a : ℚ) / (ow : ℚ)) ((b : ℚ) / (oh : ℚ))
    (max 1 (pyRound ((ow : ℚ) * scale)), max 1 (pyRound ((oh : ℚ) * scale)))

/-- `_resize_image`. -/
def resizeImage (img : Img) (tw th : Option ℤ) (kAR : Bool) : Img :=
  if tw = none ∧ th = none then img
  else
    let nwnh :=
      if kAR then fitSizeKeepAR img.width img.height tw th
      else (orDefault tw img.width, orDefault th img.height)
    if nwnh.1 = img.width ∧ nwnh.2 = img.height then img
    else pilResize img nwnh.1 nwnh.2

/-- `_prepare_for_format`. -/
def prepareForFormat (img : Img) (outFmt : String) : Img :=
  if outFmt = "jpeg" then
    if img.mode = "RGBA" ∨ img.mode = "LA" ∨ (img.mode = "P" ∧ img.transparency) then
      -- white background, RGBA source pasted with its alpha as mask: RGB result
      { width := img.width, height := img.height, mode := "RGB", transparency := false }
    else if img.mode ≠ "RGB" then { img with mode := "RGB" }
    else img
  else if outFmt = "png" ∨ outFmt = "webp" then
    if img.mode = "P" then { img with mode := "RGBA" } else img
  else img

/-- PNG compression effort: `int(round((100 - q) * 9 / 90))` clamped to
`[0, 9]` (the clamp is `max(0, min(9, ·))`). -/
def pngCompressLevel (q : ℤ) : ℤ :=
  max 0 (min 9 (pyRound ((((100 - q) * 9 : ℤ) : ℚ) / 90)))

/-- `_save_image`: clamp quality to `[10, 100]`, then dispatch on the format
with the exact encoder parameters of the source. -/
def saveImage (pil : PILModel) (img : Img) (outFmt : String) (quality : ℤ) :
    Except Err (List ℕ) :=
  let q := max 10 (min 100 quality)
  if outFmt = "jpeg" then .ok (pil.save img (.jpeg q true true))
  else if outFmt = "webp" then .ok (pil.save img (.webp q 6))
  else if outFmt = "png" then .ok (pil.save img (.png true (pngCompressLevel q)))
  else .error ⟨400, "Unsupported output format."⟩

/-- `_process_bytes`: decode (with orientation normalization), validate the
requested dimensions, resize, prepare for the format, encode.  Returns the
output bytes and the final image size. -/
def processBytes (pil : PILModel) (data : List ℕ) (width height : Option ℤ)
    (kAR : Bool) (quality : ℤ) (outFmt : String) :
    Except Err (List ℕ × ℤ × ℤ) :=
  match pil.decode data with
  | none => .error ⟨400, "Could not read image"⟩
  | some img =>
    match validateDims width height with
    | .error e => .error e
    | .ok _ =>
      let img1 := resizeImage img width height kAR
      let img2 := prepareForFormat img1 outFmt
      match saveImage pil img2 outFmt quality with
      | .error e => .error e
      | .ok out => .ok (out, img2.width, img2.height)

/-- The single-file endpoint's successful response: body plus the headers the
source sets. -/
structure SingleResponse where
  body : List ℕ
  mediaType : String
  outName : String
  origBytes : ℕ
  processedBytes : ℕ
  outWidth : ℤ
  outHeight : ℤ
deriving DecidableEq

/-- `POST /api/process` (`process_single`). -/
def processSingle (pil : PILModel) (file : PFile) (width height : Option String)
    (kAR : Bool) (quality : ℤ) (outFormat : String) :
    Except Err SingleResponse :=
  let outFmt := normalizeFormat outFormat
  if outFmt = "" then .error ⟨400, "Output format must be JPG, PNG, or WEBP."⟩
  else
    let w := parseIntForm width
    let h := parseIntForm height
    let data := file.data
    if data = [] then .error ⟨400, "Empty file."⟩
    else
      match processBytes pil data w h kAR quality outFmt with
      | .error e => .error e
      | .ok r =>
        let safe := cleanFilename (pyOrStr file.filename "image")
        let baseName := (splitNameExt safe).1
        let outName := baseName ++ formatExt outFmt
        .ok { body := r.1, mediaType := "image/" ++ (if outFmt = "jpeg" then "jpeg" else outFmt),
              outName := outName, origBytes := data.length, processedBytes := r.1.length,
              outWidth := r.2.1, outHeight := r.2.2 }

/-- Preset parsing from `process_zip` (lines 242-257): `"NNN%"` to a positive
percentage, else, if the stripped token contains a (lowercase) `x`, an
integer pair split at the first `x` of the lowercased token; parse failures
give `None`. -/
def parsePreset (preset : Option String) : Option ℤ × Option (ℤ × ℤ) :=
  let p := pyStrip (preset.getD "")
  if p.data.getLast? = some '%' then
    (match pyInt ⟨p.data.dropLast⟩ with
     | some v => if v ≤ 0 then none else some v
     | none => none, none)
  else if 'x' ∈ p.data then
    let lo := (lowerStr p).data
    let a : List Char := lo.takeWhile (fun c => c ≠ 'x')
    let b : List Char := (lo.dropWhile (fun c => c ≠ 'x')).tail
    (none, match pyInt ⟨a⟩, pyInt ⟨b⟩ with
           | some x, some y => some (x, y)
           | _, _ => none)
  else (none, none)

/-- Per-file percentage target: `max(1, int(round(o * (pct / 100.0))))` on
each axis. -/
def pctTarget (p ow oh : ℤ) : ℤ × ℤ :=
  (max 1 (pyRound ((ow : ℚ) * ((p : ℚ) / 100))),
   max 1 (pyRound ((oh : ℚ) * ((p : ℚ) / 100))))

/-- Per-file dimension selection of the batch loop: with a percentage preset,
pre-decode the file (skip on failure, modelled by `none`) and scale its own
size; with a fixed preset, use it; otherwise fall back to the request's
width/height. -/
def zipStepDims (pil : PILModel) (w h : Option ℤ) (pct : Option ℤ)
    (fixed : Option (ℤ × ℤ)) (data : List ℕ) : Option (Option ℤ × Option ℤ) :=
  match pct with
  | some p =>
    match pil.decode data with
    | none => none
    | some im => some (some (pctTarget p im.width im.height).1,
                       some (pctTarget p im.width im.height).2)
  | none =>
    match fixed with
    | some ab => some (some ab.1, some ab.2)
    | none => some (w, h)

/-- The `for f in files` loop of `process_zip`, carrying the archive entries
written so far and `processed_count`. -/
def zipLoop (pil : PILModel) (w h : Option ℤ) (pct : Option ℤ)
    (fixed : Option (ℤ × ℤ)) (kAR : Bool) (quality : ℤ) (outFmt : String) :
    List PFile → List (String × List ℕ) → ℕ →
    Except Err (List (String × List ℕ) × ℕ)
  | [], entries, count => .ok (entries, count)
  | f :: rest, entries, count =>
    if f.data = [] then zipLoop pil w h pct fixed kAR quality outFmt rest entries count
    else
      match zipStepDims pil w h pct fixed f.data with
      | none => zipLoop pil w h pct fixed kAR quality outFmt rest entries count
      | some uwh =>
        match processBytes pil f.data uwh.1 uwh.2 kAR quality outFmt with
        | .error e => .error e
        | .ok r =>
          let safe := cleanFilename (pyOrStr f.filename ("image_" ++ natStr (count + 1)))
          let baseName := (splitNameExt safe).1
          let outName0 := baseName ++ formatExt outFmt
          let outName :=
            if outName0 ∈ entries.map Prod.fst then
              baseName ++ "_" ++ natStr (count + 1) ++ formatExt outFmt
            else outName0
          zipLoop pil w h pct fixed kAR quality outFmt rest
            (entries ++ [(outName, r.1)]) (count + 1)

/-- The batch endpoint's successful response: the archive entries in writing
order and the download filename. -/
structure ZipResponse where
  entries : List (String × List ℕ)
  filename : String
deriving DecidableEq

/-- `POST /api/process-zip` (`process_zip`). -/
def processZip (pil : PILModel) (files : List PFile) (width height preset : Option String)
    (kAR : Bool) (quality : ℤ) (outFormat : String) : Except Err ZipResponse :=
  if files = [] then .error ⟨400, "No files uploaded."⟩
  else
    let outFmt := normalizeFormat outFormat
    if outFmt = "" then .error ⟨400, "Output format must be JPG, PNG, or WEBP."⟩
    else
      let w := parseIntForm width
      let h := parseIntForm height
      let pf := parsePreset preset
      match zipLoop pil w h pf.1 pf.2 kAR quality outFmt files [] 0 with
      | .error e => .error e
      | .ok r =>
        if r.2 = 0 then .error ⟨400, "All uploaded files were empty or invalid."⟩
        else .ok { entries := r.1, filename := "processed_images.zip" }

/-- A concrete decoder for witnesses and counterexamples: byte string `[1]` is
an 800×600 RGB image, `[2]` a 1000×1000 RGB image; everything else raises. -/
def cDecode : List ℕ → Option Img
  | [1] => some ⟨800, 600, "RGB", false⟩
  | [2] => some ⟨1000, 1000, "RGB", false⟩
  | _ => none

/-- A concrete encoder for witnesses: the output bytes record the final pixel
size, which makes the resize pipeline observable end to end. -/
def cSave (img : Img) : SaveCall → List ℕ :=
  fun _ => [img.width.toNat, img.height.toNat]

/-- Concrete PIL instantiation for witnesses and counterexamples. -/
def cPil : PILModel := ⟨cDecode, cSave⟩

def cImgA : Img := ⟨800, 600, "RGB", false⟩

def cFileA : PFile := ⟨some "a.png", [1]⟩

def cFileB : PFile := ⟨some "b.png", [2]⟩

/-- Sanitizes to the same base name `"a"` as `cFileA`. -/
def cFileA2 : PFile := ⟨some "a.gif", [2]⟩

/-- Non-empty but undecodable. -/
def cFileBad : PFile := ⟨some "bad.png", [9]⟩

def cFileEmpty : PFile := ⟨some "e.png", []⟩

/-- Sanitized base name the batch loop uses for a file processed at count
`k` (the default filename for a missing/empty client name depends on `k`). -/
def baseOf (f : PFile) (k : ℕ) : String :=
  (splitNameExt (cleanFilename (pyOrStr f.filename ("image_" ++ natStr (k + 1))))).1

/-- Whether the batch loop skips file `f`: empty body, or, with a percentage
preset active, a failing pre-decode. -/
def skipB (pil : PILModel) (pct : Option ℤ) (f : PFile) : Bool :=
  f.data.isEmpty || (pct.isSome && (pil.decode f.data).isNone)

/-- Base names of the files the loop processes, in order, starting from
processed count `k`. -/
def basesOf (pil : PILModel) (pct : Option ℤ) : List PFile → ℕ → List String
  | [], _ => []
  | f :: rest, k =>
    if skipB pil pct f then basesOf pil pct rest k
    else baseOf f k :: basesOf pil pct rest (k + 1)

/-- The archive-entry naming discipline of the batch loop, extracted: given
the names already written `ns` and the processed count `k`, the next base
gets `base ++ ext`, or, on a collision with an already-written name, the
1-based processed index appended before the extension. -/
def assignGo (ext : String) : List String → List String → ℕ → List String
  | [], ns, _ => ns
  | b :: rest, ns, k =>
    let n0 := b ++ ext
    let n := if n0 ∈ ns then b ++ "_" ++ natStr (k + 1) ++ ext else n0
    assignGo ext rest (ns ++ [n]) (k + 1)

/-- Names assigned to a whole batch, starting from an empty archive. -/
def assignNames (ext : String) (bases : List String) : List String :=
  assignGo ext bases [] 0

/-- Invariant of the naming discipline: every assigned name is its base plus
the extension (and then that plain name was fresh at assignment time), or the
fallback with the 1-based index spliced in before the extension. -/
def NameInv (ext : String) (bs ns : List String) : Prop :=
  ns.length = bs.length ∧
  ∀ i (hb : i < bs.length) (hn : i < ns.length),
    (ns.get ⟨i, hn⟩ = bs.get ⟨i, hb⟩ ++ ext ∧ (bs.get ⟨i, hb⟩ ++ ext) ∉ ns.take i) ∨
    ns.get ⟨i, hn⟩ = bs.get ⟨i, hb⟩ ++ "_" ++ natStr (i + 1) ++ ext

theorem cast_pos_ne_zero {n : ℤ} (h : 1 ≤ n) : (n : ℚ) ≠ 0 := by
  have : (0 : ℚ) < (n : ℚ) := by exact_mod_cast (by omega : (0:ℤ) < n)
  exact ne_of_gt this

/-- C1: with `keepAspectRatio` and both targets set (each in `(0, 20000]`) and a
positive original size, the resolved size fits inside the target box and
touches it on at least one axis: `nw ≤ targetWidth`, `nh ≤ targetHeight`, and
`nw = targetWidth` or `nh = targetHeight`. -/
theorem c1_fit_inside (ow oh tw th : ℤ)
    (how : 1 ≤ ow) (hoh : 1 ≤ oh)
    (htw1 : 1 ≤ tw) (htw2 : tw ≤ 20000) (hth1 : 1 ≤ th) (hth2 : th ≤ 20000) :
    (fitSizeKeepAR ow oh (some tw) (some th)).1 ≤ tw ∧
    (fitSizeKeepAR ow oh (some tw) (some th)).2 ≤ th ∧
    ((fitSizeKeepAR ow oh (some tw) (some th)).1 = tw ∨
     (fitSizeKeepAR ow oh (some tw) (some th)).2 = th) := by
  have how0 : (ow : ℚ) ≠ 0 := cast_pos_ne_zero how
  have hoh0 : (oh : ℚ) ≠ 0 := cast_pos_ne_zero hoh
  have hownn : (0 : ℚ) ≤ (ow : ℚ) := by exact_mod_cast (by omega : (0:ℤ) ≤ ow)
  have hohnn : (0 : ℚ) ≤ (oh : ℚ) := by exact_mod_cast (by omega : (0:ℤ) ≤ oh)
  have hwcancel : (ow : ℚ) * ((tw : ℚ) / (ow : ℚ)) = (tw : ℚ) := by
    rw [mul_comm]; exact div_mul_cancel₀ _ how0
  have hhcancel : (oh : ℚ) * ((th : ℚ) / (oh : ℚ)) = (th : ℚ) := by
    rw [mul_comm]; exact div_mul_cancel₀ _ hoh0
  simp only [fitSizeKeepAR]
  rcases le_total ((tw : ℚ) / (ow : ℚ)) ((th : ℚ) / (oh : ℚ)) with hc | hc
  · rw [min_eq_left hc]
    have h1 : max 1 (pyRound ((ow : ℚ) * ((tw : ℚ) / (ow : ℚ)))) = tw := by
      rw [hwcancel, pyRound_intCast]
      exact max_eq_right htw1
    have h2 : (oh : ℚ) * ((tw : ℚ) / (ow : ℚ)) ≤ (th : ℚ) := by
      calc (oh : ℚ) * ((tw : ℚ) / (ow : ℚ)) ≤ (oh : ℚ) * ((th : ℚ) / (oh : ℚ)) :=
            mul_le_mul_of_nonneg_left hc hohnn
        _ = (th : ℚ) := hhcancel
    have h3 : max 1 (pyRound ((oh : ℚ) * ((tw : ℚ) / (ow : ℚ)))) ≤ th :=
      max_le hth1 (pyRound_le_of_le_intCast h2)
    exact ⟨le_of_eq h1, h3, Or.inl h1⟩
  · rw [min_eq_right hc]
    have h1 : max 1 (pyRound ((oh : ℚ) * ((th : ℚ) / (oh : ℚ)))) = th := by
      rw [hhcancel, pyRound_intCast]
      exact max_eq_right hth1
    have h2 : (ow : ℚ) * ((th : ℚ) / (oh : ℚ)) ≤ (tw : ℚ) := by
      calc (ow : ℚ) * ((th : ℚ) / (oh : ℚ)) ≤ (ow : ℚ) * ((tw : ℚ) / (ow : ℚ)) :=
            mul_le_mul_of_nonneg_left hc hownn
        _ = (tw : ℚ) := hwcancel
    have h3 : max 1 (pyRound ((ow : ℚ) * ((th : ℚ) / (oh : ℚ)))) ≤ tw :=
      max_le htw1 (pyRound_le_of_le_intCast h2)
    exact ⟨h3, le_of_eq h1, Or.inr h1⟩

/-- Witness for C1 at the concrete input 800×600 fit into 400×300. -/
theorem c1_fit_inside_witness :
    ((1:ℤ) ≤ 800 ∧ (1:ℤ) ≤ 600 ∧ (1:ℤ) ≤ 400 ∧ (400:ℤ) ≤ 20000 ∧
      (1:ℤ) ≤ 300 ∧ (300:ℤ) ≤ 20000) ∧
    ((fitSizeKeepAR 800 600 (some 400) (some 300)).1 ≤ 400 ∧
     (fitSizeKeepAR 800 600 (some 400) (some 300)).2 ≤ 300 ∧
     ((fitSizeKeepAR 800 600 (some 400) (some 300)).1 = 400 ∨
      (fitSizeKeepAR 800 600 (some 400) (some 300)).2 = 300)) :=
  ⟨by norm_num,
   c1_fit_inside 800 600 400 300 (by norm_num) (by norm_num) (by norm_num)
     (by norm_num) (by norm_num) (by norm_num)⟩

theorem pyRound_eq_of_eq_intCast {x : ℚ} {n : ℤ} (h : x = (n : ℚ)) : pyRound x = n := by
  rw [h, pyRound_intCast]

theorem pngCompressLevel_100 : pngCompressLevel 100 = 0 := by
  unfold pngCompressLevel
  rw [pyRound_eq_of_eq_intCast (n := 0) (by norm_num)]
  decide

theorem pngCompressLevel_10 : pngCompressLevel 10 = 9 := by
  unfold pngCompressLevel
  rw [pyRound_eq_of_eq_intCast (n := 9) (by norm_num)]
  decide

/-- C5: for integer quality `q ∈ [10, 100]`, the compression-effort level the
PNG branch passes to the encoder equals `round((100 − q) · 9 / 90)` clamped to
`[0, 9]` (that is `pngCompressLevel q`; the mapping is a function and hence
deterministic); quality 100 yields effort 0, quality 10 yields effort 9, and
the mapping is monotonically non-increasing in `q`. -/
theorem c5_png_effort :
    (∀ (pil : PILModel) (img : Img) (q : ℤ), 10 ≤ q → q ≤ 100 →
      saveImage pil img "png" q = .ok (pil.save img (.png true (pngCompressLevel q)))) ∧
    pngCompressLevel 100 = 0 ∧ pngCompressLevel 10 = 9 ∧
    (∀ q1 q2 : ℤ, 10 ≤ q1 → q1 ≤ q2 → q2 ≤ 100 →
      pngCompressLevel q2 ≤ pngCompressLevel q1) := by
  refine ⟨?_, pngCompressLevel_100, pngCompressLevel_10, ?_⟩
  · intro pil img q h1 h2
    have hq : max 10 (min 100 q) = q := by omega
    simp [saveImage, hq]
  · intro q1 q2 h1 h12 h2
    unfold pngCompressLevel
    have hcast : (((100 - q2) * 9 : ℤ) : ℚ) ≤ (((100 - q1) * 9 : ℤ) : ℚ) := by
      exact_mod_cast (by omega : (100 - q2) * 9 ≤ (100 - q1) * 9)
    have hdiv : (((100 - q2) * 9 : ℤ) : ℚ) / 90 ≤ (((100 - q1) * 9 : ℤ) : ℚ) / 90 :=
      (div_le_div_iff_of_pos_right (by norm_num)).mpr hcast
    exact max_le_max le_rfl (min_le_min le_rfl (pyRound_mono hdiv))

/-- Witness for C5 at quality 55 (and monotonicity instance 55 ≤ 85). -/
theorem c5_png_effort_witness :
    saveImage cPil cImgA "png" 55 = .ok (cPil.save cImgA (.png true (pngCompressLevel 55))) ∧
    pngCompressLevel 85 ≤ pngCompressLevel 55 :=
  ⟨c5_png_effort.1 cPil cImgA 55 (by norm_num) (by norm_num),
   c5_png_effort.2.2.2 55 85 (by norm_num) (by norm_num) (by norm_num)⟩

/-- C8: the encoder clamps quality to `[10, 100]` before use, so for any
prepared image and supported output format, a requested quality below 10
produces exactly the bytes of quality 10, and one above 100 exactly the bytes
of quality 100. -/
theorem c8_quality_clamp :
    (∀ (pil : PILModel) (img : Img) (fmt : String) (q : ℤ),
      (fmt = "jpeg" ∨ fmt = "png" ∨ fmt = "webp") → q < 10 →
      saveImage pil img fmt q = saveImage pil img fmt 10) ∧
    (∀ (pil : PILModel) (img : Img) (fmt : String) (q : ℤ),
      (fmt = "jpeg" ∨ fmt = "png" ∨ fmt = "webp") → q > 100 →
      saveImage pil img fmt q = saveImage pil img fmt 100) := by
  constructor
  · intro pil img fmt q _ hq
    simp only [saveImage]
    rw [show max 10 (min 100 q) = max 10 (min 100 (10 : ℤ)) from by omega]
  · intro pil img fmt q _ hq
    simp only [saveImage]
    rw [show max 10 (min 100 q) = max 10 (min 100 (100 : ℤ)) from by omega]

/-- Witness for C8 at qualities 5 and 120 for the JPEG branch. -/
theorem c8_quality_clamp_witness :
    saveImage cPil cImgA "jpeg" 5 = saveImage cPil cImgA "jpeg" 10 ∧
    saveImage cPil cImgA "jpeg" 120 = saveImage cPil cImgA "jpeg" 100 :=
  ⟨c8_quality_clamp.1 cPil cImgA "jpeg" 5 (Or.inl rfl) (by norm_num),
   c8_quality_clamp.2 cPil cImgA "jpeg" 120 (Or.inl rfl) (by norm_num)⟩

theorem normalizeFormat_eq_empty {s : String}
    (h : lowerStr (pyStrip s) ∉ (["jpg", "jpeg", "png", "webp"] : List String)) :
    normalizeFormat s = "" := by
  simp only [normalizeFormat]
  simp only [List.mem_cons, List.not_mem_nil, or_false, not_or] at h
  obtain ⟨h1, h2, h3, h4⟩ := h
  rw [if_neg (by tauto), if_neg h3, if_neg h4]

/-- C6: an `out_format` whose stripped, lowercased value (with the `jpg`
alias) is not one of the three supported formats is rejected with HTTP 400 by
both endpoints; the result is the same for every `PILModel` and every
uploaded file, so no file bytes are read and no decoding occurs.  (A batch
with no files is likewise rejected with HTTP 400 before reading anything.) -/
theorem c6_format_reject (outFormat : String)
    (H : lowerStr (pyStrip outFormat) ∉ (["jpg", "jpeg", "png", "webp"] : List String)) :
    (∀ (pil : PILModel) (file : PFile) (w h : Option String) (kAR : Bool) (q : ℤ),
      processSingle pil file w h kAR q outFormat =
        .error ⟨400, "Output format must be JPG, PNG, or WEBP."⟩) ∧
    (∀ (pil : PILModel) (files : List PFile) (w h preset : Option String) (kAR : Bool) (q : ℤ),
      files ≠ [] →
      processZip pil files w h preset kAR q outFormat =
        .error ⟨400, "Output format must be JPG, PNG, or WEBP."⟩) ∧
    (∀ (pil : PILModel) (w h preset : Option String) (kAR : Bool) (q : ℤ),
      processZip pil [] w h preset kAR q outFormat = .error ⟨400, "No files uploaded."⟩) := by
  have hn : normalizeFormat outFormat = "" := normalizeFormat_eq_empty H
  refine ⟨?_, ?_, ?_⟩
  · intro pil file w h kAR q
    simp [processSingle, hn]
  · intro pil files w h preset kAR q hne
    simp [processZip, hn, hne]
  · intro pil w h preset kAR q
    simp [processZip]

/-- Witness for C6 at `out_format = "bmp"`. -/
theorem c6_format_reject_witness :
    processSingle cPil cFileA none none true 85 "bmp" =
      .error ⟨400, "Output format must be JPG, PNG, or WEBP."⟩ ∧
    processZip cPil [cFileA] none none none true 85 "bmp" =
      .error ⟨400, "Output format must be JPG, PNG, or WEBP."⟩ :=
  ⟨(c6_format_reject "bmp" (by decide)).1 cPil cFileA none none true 85,
   (c6_format_reject "bmp" (by decide)).2.1 cPil [cFileA] none none none true 85 (by simp)⟩

theorem parseIntForm_some_of_pyInt_none {s : String} (hs : pyInt s = none) :
    parseIntForm (some s) = none := by
  unfold parseIntForm
  have hp : pyInt (pyStrip s) = pyInt s := by
    unfold pyInt pyStrip
    rw [show (⟨stripEnds wsChar s.data⟩ : String).data = stripEnds wsChar s.data from rfl,
      stripEnds_idem]
  by_cases he : pyStrip s = ""
  · simp [he]
  · simp [he, hp, hs]

/-- C10: a width or height form value that does not parse as a base-10
integer (Python `int()` failing) behaves at both endpoints exactly as if the
field were absent — in particular no error is raised and the range check
never sees the value. -/
theorem c10_unparseable_dims (s : String) (hs : pyInt s = none) :
    (∀ (pil : PILModel) (file : PFile) (h : Option String) (kAR : Bool) (q : ℤ) (fmt : String),
      processSingle pil file (some s) h kAR q fmt = processSingle pil file none h kAR q fmt) ∧
    (∀ (pil : PILModel) (file : PFile) (w : Option String) (kAR : Bool) (q : ℤ) (fmt : String),
      processSingle pil file w (some s) kAR q fmt = processSingle pil file w none kAR q fmt) ∧
    (∀ (pil : PILModel) (files : List PFile) (h preset : Option String) (kAR : Bool) (q : ℤ) (fmt : String),
      processZip pil files (some s) h preset kAR q fmt =
        processZip pil files none h preset kAR q fmt) ∧
    (∀ (pil : PILModel) (files : List PFile) (w preset : Option String) (kAR : Bool) (q : ℤ) (fmt : String),
      processZip pil files w (some s) preset kAR q fmt =
        processZip pil files w none preset kAR q fmt) := by
  have hp : parseIntForm (some s) = none := parseIntForm_some_of_pyInt_none hs
  have hn : parseIntForm none = none := rfl
  refine ⟨?_, ?_, ?_, ?_⟩ <;> intros <;> simp only [processSingle, processZip, hp, hn]

/-- Witness for C10 at the unparseable value `"abc"`. -/
theorem c10_unparseable_dims_witness :
    pyInt "abc" = none ∧
    processSingle cPil cFileA (some "abc") none true 85 "jpeg" =
      processSingle cPil cFileA none none true 85 "jpeg" :=
  ⟨by decide, (c10_unparseable_dims "abc" (by decide)).1 cPil cFileA none true 85 "jpeg"⟩

/-- C3 counterexample: the malformed preset token `"0x0"` (not a
positive-dimensions form) is not treated as no preset — with one valid file
and no explicit width/height the batch request fails with HTTP 400 because
the token parsed to the fixed preset `(0, 0)`. -/
theorem c3_counterexample :
    processZip cPil [cFileA] none none (some "0x0") true 85 "jpeg" =
      .error ⟨400, "Width/Height must be positive."⟩ := rfl

/-- C3 amended: a preset token ending in `%` whose numeral fails to parse or
is non-positive, a token with neither a `%` suffix nor an `x`, and an
`x`-token whose integer parts fail to parse all silently degrade to no preset,
and the request then behaves exactly as with no preset at all; however an
`x`-token whose parts do parse as integers is accepted as a fixed preset even
when non-positive (e.g. `"0x0"` becomes `(0, 0)`), and dimension validation
then rejects the request instead of falling back. -/
theorem c3_preset_fallback :
    (∀ s : String,
      (pyStrip s).data.getLast? = some '%' →
      (pyInt ⟨(pyStrip s).data.dropLast⟩ = none ∨
        (∃ v, pyInt ⟨(pyStrip s).data.dropLast⟩ = some v ∧ v ≤ 0)) →
      parsePreset (some s) = (none, none)) ∧
    (∀ s : String,
      (pyStrip s).data.getLast? ≠ some '%' →
      'x' ∉ (pyStrip s).data →
      parsePreset (some s) = (none, none)) ∧
    (∀ s : String,
      (pyStrip s).data.getLast? ≠ some '%' →
      'x' ∈ (pyStrip s).data →
      (pyInt ⟨(lowerStr (pyStrip s)).data.takeWhile (fun c => c ≠ 'x')⟩ = none ∨
        pyInt ⟨((lowerStr (pyStrip s)).data.dropWhile (fun c => c ≠ 'x')).tail⟩ = none) →
      parsePreset (some s) = (none, none)) ∧
    (∀ (pil : PILModel) (files : List PFile) (w h : Option String) (kAR : Bool)
      (q : ℤ) (fmt : String) (s : String),
      parsePreset (some s) = (none, none) →
      processZip pil files w h (some s) kAR q fmt =
        processZip pil files w h none kAR q fmt) ∧
    parsePreset (some "0x0") = (none, some (0, 0)) := by
  refine ⟨?_, ?_, ?_, ?_, rfl⟩
  · intro s h1 h2
    simp only [parsePreset, Option.getD_some]
    rw [if_pos h1]
    rcases h2 with hn | ⟨v, hv, hvle⟩
    · simp [hn]
    · simp [hv, hvle]
  · intro s h1 h2
    simp only [parsePreset, Option.getD_some]
    rw [if_neg h1, if_neg (by simpa using h2)]
  · intro s h1 hx h2
    simp only [parsePreset, Option.getD_some]
    rw [if_neg h1, if_pos (by simpa using hx)]
    rcases h2 with ha | hb
    · cases hob : pyInt ⟨((lowerStr (pyStrip s)).data.dropWhile (fun c => c ≠ 'x')).tail⟩ <;>
        simp only [ne_eq, ha, hob]
    · cases hoa : pyInt ⟨(lowerStr (pyStrip s)).data.takeWhile (fun c => c ≠ 'x')⟩ <;>
        simp only [ne_eq, hoa, hb]
  · intro pil files w h kAR q fmt s hp
    have hnone : parsePreset none = (none, none) := rfl
    simp only [processZip, hp, hnone]

/-- Witness for C3 amended: each fallback case at a concrete token, and the
behavioral fallback at `"nope"`. -/
theorem c3_preset_fallback_witness :
    parsePreset (some "abc%") = (none, none) ∧
    parsePreset (some "hello") = (none, none) ∧
    parsePreset (some "axb") = (none, none) ∧
    processZip cPil [cFileA] none none (some "nope") true 85 "jpeg" =
      processZip cPil [cFileA] none none none true 85 "jpeg" :=
  ⟨c3_preset_fallback.1 "abc%" (by decide) (Or.inl (by decide)),
   c3_preset_fallback.2.1 "hello" (by decide) (by decide),
   c3_preset_fallback.2.2.1 "axb" (by decide) (by decide) (Or.inl (by decide)),
   c3_preset_fallback.2.2.2.1 cPil [cFileA] none none true 85 "jpeg" "nope" (by decide)⟩

/-- C2 counterexample: with no percentage preset, a single undecodable file
aborts the entire batch with HTTP 400 even though a second, valid file
follows — the failing file is not skipped. -/
theorem c2_counterexample :
    processZip cPil [cFileBad, cFileA] none none none true 85 "jpeg" =
      .error ⟨400, "Could not read image"⟩ := rfl

/-- C2 amended: in the batch loop, empty files are always skipped, and a file
whose bytes fail to decode is skipped exactly when a percentage preset is
active (only then does the loop pre-decode per file); the loop behaves
identically on the input list and on the list filtered down to the files it
does not skip.  Without a percentage preset an undecodable file reaches the
shared pipeline, whose decode failure aborts the whole batch
(`c2_counterexample`). -/
theorem c2_skip_policy :
    ∀ (pil : PILModel) (w h : Option ℤ) (pct : Option ℤ) (fixed : Option (ℤ × ℤ))
      (kAR : Bool) (q : ℤ) (fmt : String) (files : List PFile)
      (entries : List (String × List ℕ)) (count : ℕ),
      zipLoop pil w h pct fixed kAR q fmt files entries count =
        zipLoop pil w h pct fixed kAR q fmt
          (files.filter (fun f => !f.data.isEmpty && (pct.isNone || (pil.decode f.data).isSome)))
          entries count := by
  intro pil w h pct fixed kAR q fmt files
  induction files with
  | nil => intro entries count; rfl
  | cons f rest ih =>
    intro entries count
    by_cases hd : f.data = []
    · have hcond : (!f.data.isEmpty && (pct.isNone || (pil.decode f.data).isSome)) = false := by
        simp [hd]
      rw [List.filter_cons, hcond]
      simp only [Bool.false_eq_true, if_false]
      simp only [zipLoop, if_pos hd]
      exact ih entries count
    · cases pct with
      | none =>
        have hcond : (!f.data.isEmpty &&
            ((none : Option ℤ).isNone || (pil.decode f.data).isSome)) = true := by
          simp [hd]
        rw [List.filter_cons, hcond]
        simp only [if_true]
        simp only [zipLoop, if_neg hd]
        split
        · exact ih entries count
        · split
          · rfl
          · exact ih _ _
      | some p =>
        cases hdec : pil.decode f.data with
        | none =>
          have hcond : (!f.data.isEmpty &&
              ((some p : Option ℤ).isNone || (pil.decode f.data).isSome)) = false := by
            simp [hdec]
          rw [List.filter_cons, hcond]
          simp only [Bool.false_eq_true, if_false]
          simp only [zipLoop, if_neg hd, zipStepDims, hdec]
          exact ih entries count
        | some im =>
          have hcond : (!f.data.isEmpty &&
              ((some p : Option ℤ).isNone || (pil.decode f.data).isSome)) = true := by
            simp [hd, hdec]
          rw [List.filter_cons, hcond]
          simp only [if_true]
          simp only [zipLoop, if_neg hd, zipStepDims, hdec]
          split
          · rfl
          · exact ih _ _

theorem zipLoop_all_skip (pil : PILModel) (w h : Option ℤ) (pct : Option ℤ)
    (fixed : Option (ℤ × ℤ)) (kAR : Bool) (q : ℤ) (fmt : String) :
    ∀ (files : List PFile), (∀ f ∈ files, f.data = [] ∨ pil.decode f.data = none) →
    ∀ (entries : List (String × List ℕ)) (count : ℕ),
      zipLoop pil w h pct fixed kAR q fmt files entries count = .ok (entries, count) ∨
      ∃ d, zipLoop pil w h pct fixed kAR q fmt files entries count = .error ⟨400, d⟩ := by
  intro files
  induction files with
  | nil => intro _ entries count; exact Or.inl rfl
  | cons f rest ih =>
    intro hall entries count
    have hf := hall f (by simp)
    have hrest : ∀ g ∈ rest, g.data = [] ∨ pil.decode g.data = none :=
      fun g hg => hall g (by simp [hg])
    by_cases hd : f.data = []
    · simp only [zipLoop, if_pos hd]
      exact ih hrest entries count
    · have hdec : pil.decode f.data = none := by tauto
      cases pct with
      | some p =>
        simp only [zipLoop, if_neg hd, zipStepDims, hdec]
        exact ih hrest entries count
      | none =>
        refine Or.inr ⟨"Could not read image", ?_⟩
        simp only [zipLoop, if_neg hd, zipStepDims]
        cases fixed <;> simp only [processBytes, hdec]

theorem zipLoop_length_balance (pil : PILModel) (w h : Option ℤ) (pct : Option ℤ)
    (fixed : Option (ℤ × ℤ)) (kAR : Bool) (q : ℤ) (fmt : String) :
    ∀ (files : List PFile) (entries : List (String × List ℕ)) (count : ℕ)
      (e : List (String × List ℕ)) (c : ℕ),
      zipLoop pil w h pct fixed kAR q fmt files entries count = .ok (e, c) →
      e.length + count = entries.length + c := by
  intro files
  induction files with
  | nil =>
    intro entries count e c hz
    simp only [zipLoop, Except.ok.injEq, Prod.mk.injEq] at hz
    obtain ⟨he, hc⟩ := hz
    subst he
    subst hc
    omega
  | cons f rest ih =>
    intro entries count e c hz
    by_cases hd : f.data = []
    · simp only [zipLoop, if_pos hd] at hz
      exact ih entries count e c hz
    · simp only [zipLoop, if_neg hd] at hz
      split at hz
      · exact ih entries count e c hz
      · split at hz
        · cases hz
        · have := ih _ _ e c hz
          simp only [List.length_append, List.length_cons, List.length_nil] at this
          omega

/-- C9: a batch in which every uploaded file is empty or undecodable is
answered with an HTTP 400 error and no archive; and whenever the batch
endpoint does return an archive, the archive is non-empty. -/
theorem c9_no_empty_archive :
    (∀ (pil : PILModel) (files : List PFile) (w h preset : Option String)
      (kAR : Bool) (q : ℤ) (fmt : String),
      (∀ f ∈ files, f.data = [] ∨ pil.decode f.data = none) →
      ∃ d, processZip pil files w h preset kAR q fmt = .error ⟨400, d⟩) ∧
    (∀ (pil : PILModel) (files : List PFile) (w h preset : Option String)
      (kAR : Bool) (q : ℤ) (fmt : String) (r : ZipResponse),
      processZip pil files w h preset kAR q fmt = .ok r → r.entries ≠ []) := by
  constructor
  · intro pil files w h preset kAR q fmt hall
    by_cases hfe : files = []
    · exact ⟨"No files uploaded.", by simp [processZip, hfe]⟩
    · by_cases hfmt : normalizeFormat fmt = ""
      · exact ⟨"Output format must be JPG, PNG, or WEBP.", by simp [processZip, hfe, hfmt]⟩
      · rcases zipLoop_all_skip pil (parseIntForm w) (parseIntForm h) (parsePreset preset).1
            (parsePreset preset).2 kAR q (normalizeFormat fmt) files hall [] 0 with hok | ⟨d, herr⟩
        · refine ⟨"All uploaded files were empty or invalid.", ?_⟩
          simp [processZip, hfe, hfmt, hok]
        · exact ⟨d, by simp [processZip, hfe, hfmt, herr]⟩
  · intro pil files w h preset kAR q fmt r hr
    by_cases hfe : files = []
    · simp [processZip, hfe] at hr
    · by_cases hfmt : normalizeFormat fmt = ""
      · simp [processZip, hfe, hfmt] at hr
      · cases hz : zipLoop pil (parseIntForm w) (parseIntForm h) (parsePreset preset).1
            (parsePreset preset).2 kAR q (normalizeFormat fmt) files [] 0 with
        | error e => simp [processZip, hfe, hfmt, hz] at hr
        | ok ec =>
          simp only [processZip, if_neg hfe, if_neg hfmt, hz] at hr
          by_cases hc : ec.2 = 0
          · simp [hc] at hr
          · simp only [hc, if_neg hc, if_false] at hr
            have hbal := zipLoop_length_balance pil (parseIntForm w) (parseIntForm h)
              (parsePreset preset).1 (parsePreset preset).2 kAR q (normalizeFormat fmt)
              files [] 0 ec.1 ec.2 (by rw [hz])
            have hre : r.entries = ec.1 := by
              cases hr
              rfl
            intro hnil
            have hnil2 : ec.1 = [] := by rw [← hre]; exact hnil
            rw [hnil2] at hbal
            simp at hbal
            omega

/-- Witness for C9: a batch of one empty and one undecodable file is rejected
with HTTP 400. -/
theorem c9_no_empty_archive_witness :
    ∃ d, processZip cPil [cFileEmpty, cFileBad] none none none true 85 "jpeg" =
      .error ⟨400, d⟩ :=
  c9_no_empty_archive.1 cPil [cFileEmpty, cFileBad] none none none true 85 "jpeg"
    (by
      intro f hf
      simp only [List.mem_cons, List.not_mem_nil, or_false] at hf
      rcases hf with rfl | rfl
      · exact Or.inl rfl
      · exact Or.inr rfl)

theorem pctTarget_50_800_600 : pctTarget 50 800 600 = (400, 300) := by
  unfold pctTarget
  rw [pyRound_eq_of_eq_intCast (n := 400) (by norm_num),
    pyRound_eq_of_eq_intCast (n := 300) (by norm_num)]
  decide

theorem pctTarget_50_1000_1000 : pctTarget 50 1000 1000 = (500, 500) := by
  unfold pctTarget
  rw [pyRound_eq_of_eq_intCast (n := 500) (by norm_num)]
  decide

theorem fit_800_600_in_400_300 :
    fitSizeKeepAR 800 600 (some 400) (some 300) = (400, 300) := by
  simp only [fitSizeKeepAR]
  rw [show min (((400 : ℤ) : ℚ) / ((800 : ℤ) : ℚ)) (((300 : ℤ) : ℚ) / ((600 : ℤ) : ℚ)) =
      (1 : ℚ )/2 from by norm_num]
  rw [pyRound_eq_of_eq_intCast (n := 400) (by norm_num),
    pyRound_eq_of_eq_intCast (n := 300) (by norm_num)]
  decide

theorem fit_1000_1000_in_500_500 :
    fitSizeKeepAR 1000 1000 (some 500) (some 500) = (500, 500) := by
  simp only [fitSizeKeepAR]
  rw [show min (((500 : ℤ) : ℚ) / ((1000 : ℤ) : ℚ)) (((500 : ℤ) : ℚ) / ((1000 : ℤ) : ℚ)) =
      (1 : ℚ)/2 from by norm_num]
  rw [pyRound_eq_of_eq_intCast (n := 500) (by norm_num)]
  decide

/-- C7: with an active percentage preset the batch loop recomputes the target
from each file's own (orientation-normalized, i.e. post-decode) size as
`max(1, round(original · P/100))` per axis; `"50%"` parses to 50, an 800×600
file resolves to 400×300 while a 1000×1000 file in the same batch resolves to
500×500, observable end to end in the archive the batch endpoint returns. -/
theorem c7_pct_per_file :
    parsePreset (some "50%") = (some 50, none) ∧
    parsePreset (some "25%") = (some 25, none) ∧
    (∀ (pil : PILModel) (w h : Option ℤ) (fixed : Option (ℤ × ℤ)) (p : ℤ)
      (data : List ℕ) (img : Img), pil.decode data = some img →
      zipStepDims pil w h (some p) fixed data =
        some (some (max 1 (pyRound ((img.width : ℚ) * ((p : ℚ) / 100)))),
              some (max 1 (pyRound ((img.height : ℚ) * ((p : ℚ) / 100)))))) ∧
    pctTarget 50 800 600 = (400, 300) ∧
    pctTarget 50 1000 1000 = (500, 500) ∧
    processZip cPil [cFileA, cFileB] none none (some "50%") true 85 "jpeg" =
      .ok ⟨[("a.jpg", [400, 300]), ("b.jpg", [500, 500])], "processed_images.zip"⟩ := by
  refine ⟨rfl, rfl, ?_, pctTarget_50_800_600, pctTarget_50_1000_1000, ?_⟩
  · intro pil w h fixed p data img hdec
    simp [zipStepDims, hdec, pctTarget]
  · have stepA : zipStepDims cPil none none (some 50) none [1] = some (some 400, some 300) := by
      simp [zipStepDims, cPil, cDecode, pctTarget_50_800_600]
    have stepB : zipStepDims cPil none none (some 50) none [2] = some (some 500, some 500) := by
      simp [zipStepDims, cPil, cDecode, pctTarget_50_1000_1000]
    have pbA : processBytes cPil [1] (some 400) (some 300) true 85 "jpeg" =
        .ok ([400, 300], 400, 300) := by
      simp [processBytes, cPil, cDecode, validateDims, validateOne, maxDimension,
        resizeImage, fit_800_600_in_400_300, pilResize, prepareForFormat, saveImage, cSave]
    have pbB : processBytes cPil [2] (some 500) (some 500) true 85 "jpeg" =
        .ok ([500, 500], 500, 500) := by
      simp [processBytes, cPil, cDecode, validateDims, validateOne, maxDimension,
        resizeImage, fit_1000_1000_in_500_500, pilResize, prepareForFormat, saveImage, cSave]
    have hparse : parsePreset (some "50%") = (some 50, none) := rfl
    have hfmt : normalizeFormat "jpeg" = "jpeg" := rfl
    have hpif : parseIntForm none = none := rfl
    have hdA : cFileA.data = [1] := rfl
    have hdB : cFileB.data = [2] := rfl
    have hnA : cleanFilename (pyOrStr cFileA.filename ("image_" ++ natStr 1)) = "a.png" := rfl
    have hnB : cleanFilename (pyOrStr cFileB.filename ("image_" ++ natStr 2)) = "b.png" := rfl
    have hsA : splitNameExt "a.png" = ("a", ".png") := rfl
    have hsB : splitNameExt "b.png" = ("b", ".png") := rfl
    have hext : formatExt "jpeg" = ".jpg" := rfl
    simp [processZip, zipLoop, hparse, hfmt, hpif, hdA, hdB, stepA, stepB, pbA, pbB,
      hnA, hnB, hsA, hsB, hext]

/-- Witness for C7's per-file formula at a concrete decoded 800×600 file. -/
theorem c7_pct_per_file_witness :
    zipStepDims cPil none none (some 50) none [1] =
      some (some (max 1 (pyRound (((800 : ℤ) : ℚ) * (((50 : ℤ) : ℚ) / 100)))),
            some (max 1 (pyRound (((600 : ℤ) : ℚ) * (((50 : ℤ) : ℚ) / 100))))) :=
  c7_pct_per_file.2.2.1 cPil none none none 50 [1] ⟨800, 600, "RGB", false⟩ rfl

theorem str_append_cancel {a s1 s2 c : String} (h : a ++ s1 ++ c = a ++ s2 ++ c) :
    s1 = s2 := by
  have hd := congrArg String.data h
  simp only [String.data_append] at hd
  exact String.ext (List.append_cancel_left (List.append_cancel_right hd))

theorem plain_ne_fallback {b s ext : String} (hs : 1 ≤ s.length) :
    b ++ ext ≠ b ++ "_" ++ s ++ ext := by
  intro h
  have := congrArg String.length h
  simp only [String.length_append] at this
  have h1 : ("_" : String).length = 1 := rfl
  omega

theorem assignGo_length (ext : String) :
    ∀ (bases ns : List String) (k : ℕ),
      (assignGo ext bases ns k).length = ns.length + bases.length := by
  intro bases
  induction bases with
  | nil => intro ns k; simp [assignGo]
  | cons b rest ih =>
    intro ns k
    simp only [assignGo]
    rw [ih]
    simp only [List.length_append, List.length_cons, List.length_nil]
    omega

theorem nameInv_snoc (ext b : String) (bs ns : List String) (h : NameInv ext bs ns) :
    NameInv ext (bs ++ [b])
      (ns ++ [if (b ++ ext) ∈ ns then b ++ "_" ++ natStr (bs.length + 1) ++ ext
              else b ++ ext]) := by
  obtain ⟨hlen, hinv⟩ := h
  constructor
  · simp [hlen]
  · intro i hb hn
    simp only [List.length_append, List.length_singleton] at hb hn
    by_cases hi : i < bs.length
    · have hin : i < ns.length := by omega
      have hgb : (bs ++ [b]).get ⟨i, by simpa using hb⟩ = bs.get ⟨i, hi⟩ := by
        simp only [List.get_eq_getElem]
        exact List.getElem_append_left hi
      have hgn : (ns ++ [if (b ++ ext) ∈ ns then b ++ "_" ++ natStr (bs.length + 1) ++ ext
          else b ++ ext]).get ⟨i, by simpa using hn⟩ = ns.get ⟨i, hin⟩ := by
        simp only [List.get_eq_getElem]
        exact List.getElem_append_left hin
      have htake : (ns ++ [if (b ++ ext) ∈ ns then b ++ "_" ++ natStr (bs.length + 1) ++ ext
          else b ++ ext]).take i = ns.take i :=
        List.take_append_of_le_length (by omega)
      rw [hgb, hgn, htake]
      exact hinv i hi hin
    · have hi2 : i = bs.length := by omega
      subst hi2
      have hgb : (bs ++ [b]).get ⟨bs.length, by simpa using hb⟩ = b := by
        simp only [List.get_eq_getElem]
        exact List.getElem_concat_length bs b bs.length rfl _
      have hgn : (ns ++ [if (b ++ ext) ∈ ns then b ++ "_" ++ natStr (bs.length + 1) ++ ext
          else b ++ ext]).get ⟨bs.length, by simpa using hn⟩ =
          (if (b ++ ext) ∈ ns then b ++ "_" ++ natStr (bs.length + 1) ++ ext
           else b ++ ext) := by
        simp only [List.get_eq_getElem]
        exact List.getElem_concat_length ns _ bs.length hlen.symm _
      rw [hgb, hgn]
      by_cases hmem : (b ++ ext) ∈ ns
      · right
        rw [if_pos hmem]
      · left
        rw [if_neg hmem]
        refine ⟨rfl, ?_⟩
        have htake : (ns ++ [b ++ ext]).take bs.length = ns := by
          rw [List.take_append_of_le_length (by omega), ← hlen, List.take_length]
        rw [htake]
        exact hmem

theorem nameInv_assignGo (ext : String) :
    ∀ (rest bs ns : List String), NameInv ext bs ns →
      NameInv ext (bs ++ rest) (assignGo ext rest ns bs.length) := by
  intro rest
  induction rest with
  | nil => intro bs ns h; simpa [assignGo] using h
  | cons b rest ih =>
    intro bs ns h
    simp only [assignGo]
    have hstep := nameInv_snoc ext b bs ns h
    have := ih (bs ++ [b])
      (ns ++ [if (b ++ ext) ∈ ns then b ++ "_" ++ natStr (bs.length + 1) ++ ext
              else b ++ ext]) hstep
    simp only [List.length_append, List.length_singleton, List.append_assoc,
      List.singleton_append] at this
    exact this

theorem nameInv_assignNames (ext : String) (bases : List String) :
    NameInv ext bases (assignNames ext bases) := by
  have h0 : NameInv ext [] [] := by
    constructor
    · rfl
    · intro i hb hn
      simp at hb
  have := nameInv_assignGo ext bases [] [] h0
  simpa [assignNames] using this

theorem nameInv_distinct (ext : String) (bs ns : List String) (h : NameInv ext bs ns)
    (i j : ℕ) (hib : i < bs.length) (hjb : j < bs.length)
    (hin : i < ns.length) (hjn : j < ns.length) (hij : i < j)
    (hb : bs.get ⟨i, hib⟩ = bs.get ⟨j, hjb⟩) :
    ns.get ⟨i, hin⟩ ≠ ns.get ⟨j, hjn⟩ := by
  obtain ⟨hlen, hinv⟩ := h
  intro heq
  rcases hinv j hjb hjn with ⟨hpj, hnotin⟩ | hfj
  · -- the later name is plain, so the plain name was fresh: but the earlier
    -- equal name is among the first j names
    apply hnotin
    rw [← hpj, ← heq]
    have hitake : i < (ns.take j).length := by
      simp [List.length_take]
      omega
    have : (ns.take j).get ⟨i, hitake⟩ = ns.get ⟨i, hin⟩ := by
      simp only [List.get_eq_getElem]
      exact List.getElem_take ns
    rw [← this]
    exact List.get_mem _ _ _
  · rcases hinv i hib hin with ⟨hpi, _⟩ | hfi
    · -- earlier plain, later fallback: different lengths
      rw [hpi, hb] at heq
      rw [hfj] at heq
      exact plain_ne_fallback (natStr_length_pos (Nat.succ_pos j)) heq
    · -- both fallback: cancel and use injectivity of the decimal numeral
      rw [hfi, hb] at heq
      rw [hfj] at heq
      have : natStr (i + 1) = natStr (j + 1) :=
        str_append_cancel (a := bs.get ⟨j, hjb⟩ ++ "_") (c := ext)
          (by simpa [String.append_assoc] using heq)
      have := natStr_inj (Nat.succ_pos i) (Nat.succ_pos j) this
      omega

theorem zipLoop_names (pil : PILModel) (w h : Option ℤ) (pct : Option ℤ)
    (fixed : Option (ℤ × ℤ)) (kAR : Bool) (q : ℤ) (fmt : String) :
    ∀ (files : List PFile) (entries : List (String × List ℕ)) (count : ℕ)
      (e : List (String × List ℕ)) (c : ℕ),
      zipLoop pil w h pct fixed kAR q fmt files entries count = .ok (e, c) →
      e.map Prod.fst =
        assignGo (formatExt fmt) (basesOf pil pct files count) (entries.map Prod.fst) count := by
  intro files
  induction files with
  | nil =>
    intro entries count e c hz
    simp only [zipLoop, Except.ok.injEq, Prod.mk.injEq] at hz
    obtain ⟨he, _⟩ := hz
    subst he
    simp [basesOf, assignGo]
  | cons f rest ih =>
    intro entries count e c hz
    by_cases hd : f.data = []
    · have hbases : basesOf pil pct (f :: rest) count = basesOf pil pct rest count := by
        simp [basesOf, skipB, hd]
      simp only [zipLoop, if_pos hd] at hz
      rw [hbases]
      exact ih entries count e c hz
    · simp only [zipLoop, if_neg hd] at hz
      split at hz
      · rename_i hstep
        have hskip : skipB pil pct f = true := by
          cases hpct2 : pct with
          | none =>
            rw [hpct2] at hstep
            cases hfix2 : fixed <;> rw [hfix2] at hstep <;> simp [zipStepDims] at hstep
          | some p =>
            rw [hpct2] at hstep
            simp only [zipStepDims] at hstep
            cases hdec2 : pil.decode f.data with
            | none => simp [skipB, hpct2, hdec2]
            | some im => rw [hdec2] at hstep; simp at hstep
        have hbases : basesOf pil pct (f :: rest) count = basesOf pil pct rest count := by
          simp [basesOf, hskip]
        rw [hbases]
        exact ih entries count e c hz
      · rename_i uwh hstep
        have hskip : skipB pil pct f = false := by
          cases hpct2 : pct with
          | none => simp [skipB, hpct2, hd]
          | some p =>
            rw [hpct2] at hstep
            simp only [zipStepDims] at hstep
            cases hdec2 : pil.decode f.data with
            | none => rw [hdec2] at hstep; simp at hstep
            | some im => simp [skipB, hpct2, hdec2, hd]
        have hbases : basesOf pil pct (f :: rest) count =
            baseOf f count :: basesOf pil pct rest (count + 1) := by
          simp [basesOf, hskip]
        rw [hbases]
        split at hz
        · cases hz
        · have hrec := ih _ _ e c hz
          rw [hrec]
          simp only [assignGo, List.map_append, List.map_cons, List.map_nil, baseOf]

/-- C4: in a successful batch run the written archive entry names are exactly
the ones produced by the naming discipline `assignNames` — the plain
`base ++ ext`, or, on a collision with an already-written name, the file's
1-based processed index appended before the extension — and any two processed
files whose sanitized filenames yield the same base name receive distinct
entry names. -/
theorem c4_collision_names :
    ∀ (pil : PILModel) (w h : Option ℤ) (pct : Option ℤ) (fixed : Option (ℤ × ℤ))
      (kAR : Bool) (q : ℤ) (fmt : String) (files : List PFile)
      (entries : List (String × List ℕ)) (count : ℕ),
      zipLoop pil w h pct fixed kAR q fmt files [] 0 = .ok (entries, count) →
      entries.map Prod.fst = assignNames (formatExt fmt) (basesOf pil pct files 0) ∧
      (∀ (i j : ℕ) (hib : i < (basesOf pil pct files 0).length)
        (hjb : j < (basesOf pil pct files 0).length)
        (hin : i < (entries.map Prod.fst).length) (hjn : j < (entries.map Prod.fst).length),
        i < j →
        (basesOf pil pct files 0).get ⟨i, hib⟩ = (basesOf pil pct files 0).get ⟨j, hjb⟩ →
        (entries.map Prod.fst).get ⟨i, hin⟩ ≠ (entries.map Prod.fst).get ⟨j, hjn⟩) := by
  intro pil w h pct fixed kAR q fmt files entries count hz
  have hnames : entries.map Prod.fst = assignNames (formatExt fmt) (basesOf pil pct files 0) := by
    have := zipLoop_names pil w h pct fixed kAR q fmt files [] 0 entries count hz
    simpa [assignNames] using this
  refine ⟨hnames, ?_⟩
  intro i j hib hjb hin hjn hij hb
  have hinv := nameInv_assignNames (formatExt fmt) (basesOf pil pct files 0)
  have hin2 : i < (assignNames (formatExt fmt) (basesOf pil pct files 0)).length := by
    rw [← hnames]; exact hin
  have hjn2 : j < (assignNames (formatExt fmt) (basesOf pil pct files 0)).length := by
    rw [← hnames]; exact hjn
  have hne := nameInv_distinct (formatExt fmt) (basesOf pil pct files 0)
    (assignNames (formatExt fmt) (basesOf pil pct files 0)) hinv i j hib hjb hin2 hjn2 hij hb
  intro heq
  apply hne
  have hgi : (entries.map Prod.fst).get ⟨i, hin⟩ =
      (assignNames (formatExt fmt) (basesOf pil pct files 0)).get ⟨i, hin2⟩ := by
    simp only [List.get_eq_getElem]
    exact List.getElem_of_eq hnames hin
  have hgj : (entries.map Prod.fst).get ⟨j, hjn⟩ =
      (assignNames (formatExt fmt) (basesOf pil pct files 0)).get ⟨j, hjn2⟩ := by
    simp only [List.get_eq_getElem]
    exact List.getElem_of_eq hnames hjn
  rw [← hgi, ← hgj]
  exact heq

/-- Witness for C4: two files sanitizing to base `"a"` in one batch receive
the entry names `"a.jpg"` and `"a_2.jpg"`. -/
theorem c4_collision_names_witness :
    (["a.jpg", "a_2.jpg"] : List String) =
      assignNames ".jpg" (basesOf cPil none [cFileA, cFileA2] 0) ∧
    (("a.jpg" : String) ≠ "a_2.jpg") := by
  have hz : zipLoop cPil none none none none true 85 "jpeg" [cFileA, cFileA2] [] 0 =
      .ok ([("a.jpg", [800, 600]), ("a_2.jpg", [1000, 1000])], 2) := rfl
  have h := c4_collision_names cPil none none none none true 85 "jpeg" [cFileA, cFileA2]
    [("a.jpg", [800, 600]), ("a_2.jpg", [1000, 1000])] 2 hz
  constructor
  · have h1 := h.1
    simpa [formatExt] using h1
  · have h2 := h.2 0 1 (by decide) (by decide) (by decide) (by decide) (by decide) (by decide)
    simpa using h2
